import Mathlib

/-!
Verification development for the database-enhanced MCP calendar server
(`Templates/python/database-enhanced/server.py`).

The embedding models:
* the event transformer `_transform_event_data`,
* the sync loop of `_handle_sync_data` (per-record transform + upsert into
  the `events` table, with per-record error counting),
* the `free_slots` SQL macro (recursive slot generation, busy-overlap
  filter, business-hours/weekday filter),
* the aggregate numbers of `_handle_generate_insights`.

Timestamps are modelled as natural numbers counting minutes since an epoch
placed at a Sunday 00:00, so that DuckDB's `EXTRACT(hour ...)` becomes
`t % 1440 / 60` and `EXTRACT(dow ...)` (Sunday = 0 .. Saturday = 6) becomes
`t / 1440 % 7`.  Raw events carry their timestamps pre-parsed as
`Option Nat`: `none` stands for a missing or unparsable ISO-8601 string,
which in the Python code raises inside `datetime.fromisoformat` /
the dict lookup and is caught by the sync loop's per-record handler.
The wall clock `datetime.now(timezone.utc)` is modelled as a `now : Nat`
parameter of a sync call.
-/

/-- An attendee record from the remote API; `email` is the value of
`attendee.get("email", "")` (so the empty string when absent). -/
structure Attendee where
  email : String
deriving DecidableEq, Repr

/-- A raw event object as fetched from the remote API.  Optional fields are
`Option`; the timestamps are pre-parsed minutes (`none` = missing/unparsable). -/
structure RawEvent where
  id : String
  title : Option String
  description : Option String
  start_time : Option Nat
  end_time : Option Nat
  attendees : List Attendee
  creator_email : Option String
  status : Option String
  location : Option String
  recurring : Option Bool
deriving DecidableEq, Repr

/-- The dict returned by `_transform_event_data` (everything the sync loop
writes except the `created_at` / `updated_at` bookkeeping columns). -/
structure Transformed where
  id : String
  title : String
  description : String
  start_time : Nat
  end_time : Nat
  duration_minutes : Int
  attendees_count : Nat
  meeting_type : String
  creator_email : String
  status : String
  location : String
  is_recurring : Bool
deriving DecidableEq, Repr

/-- A row of the `events` table. -/
structure EventRow where
  id : String
  title : String
  description : String
  start_time : Nat
  end_time : Nat
  duration_minutes : Int
  attendees_count : Nat
  meeting_type : String
  creator_email : String
  status : String
  location : String
  is_recurring : Bool
  created_at : Nat
  updated_at : Nat
deriving DecidableEq, Repr

/-- Character-level splitting on a separator character, matching Python's
`str.split(sep)` for a one-character separator: empty segments are kept. -/
def splitChar (c : Char) : List Char → List (List Char)
  | [] => [[]]
  | x :: xs =>
    if x = c then [] :: splitChar c xs
    else
      match splitChar c xs with
      | [] => [[x]]
      | g :: gs => (x :: g) :: gs

/-- Python's `email.split("@")[1]`: the segment after the first `"@"`. -/
def emailDomain (email : String) : String :=
  ⟨(splitChar '@' email.data).getD 1 []⟩

/-- The set of attendee e-mail domains:
`{attendee.get("email", "").split("@")[1] for attendee in attendees if "@" in attendee.get("email", "")}`. -/
def attendeeDomains (atts : List Attendee) : Finset String :=
  (atts.filterMap fun a =>
    if a.email.data.contains '@' then some (emailDomain a.email) else none).toFinset

/-- Meeting-type classification of `_transform_event_data`, with the company
domain (hard-coded to `"example.com"` in the source) as a parameter:
external if some attendee domain differs from the company domain, else
internal if more than one attendee, else personal. -/
def meetingType (companyDomain : String) (atts : List Attendee) : String :=
  if 0 < ((attendeeDomains atts).erase companyDomain).card then "external"
  else if 1 < atts.length then "internal"
  else "personal"

/-- The transformer `_transform_event_data`.  It fails (`none`) exactly when a
timestamp is missing/unparsable; the duration is the (possibly negative)
difference in minutes; optional fields get the source's defaults. -/
def transform_event_data (e : RawEvent) : Option Transformed :=
  match e.start_time, e.end_time with
  | some st, some et =>
      some
        { id := e.id
          title := e.title.getD "No title"
          description := e.description.getD ""
          start_time := st
          end_time := et
          duration_minutes := (et : Int) - (st : Int)
          attendees_count := e.attendees.length
          meeting_type := meetingType "example.com" e.attendees
          creator_email := e.creator_email.getD ""
          status := e.status.getD "confirmed"
          location := e.location.getD ""
          is_recurring := e.recurring.getD false }
  | _, _ => none

/-- Hour-of-day of a timestamp (minutes since the Sunday-00:00 epoch),
DuckDB's `EXTRACT(hour FROM ts)`. -/
def hourOf (t : Nat) : Nat := t % 1440 / 60

/-- Day-of-week of a timestamp, DuckDB's `EXTRACT(dow FROM ts)`
(Sunday = 0 .. Saturday = 6). -/
def dowOf (t : Nat) : Nat := t / 1440 % 7

/-- Fuel-driven unfolding of the recursive CTE `time_slots`: the anchor row is
`s`, and while `slot_start + INTERVAL '30 minutes' < end_date` another row is
added 30 minutes later.  The fuel `ed - sd` is always sufficient, so the `0`
case is only ever reached when the recursion guard is false. -/
def timeSlotsAux : Nat → Nat → Nat → List Nat
  | 0, s, _ => [s]
  | fuel + 1, s, ed => if s + 30 < ed then s :: timeSlotsAux fuel (s + 30) ed else [s]

/-- The candidate slot starts generated by the `time_slots` CTE of the
`free_slots` macro for `[start_date, end_date]`. -/
def timeSlots (sd ed : Nat) : List Nat := timeSlotsAux (ed - sd) sd ed

/-- The `busy_times` CTE: confirmed events with
`start_time >= start_date AND end_time <= end_date`. -/
def busyTimes (db : List EventRow) (sd ed : Nat) : List (Nat × Nat) :=
  (db.filter fun r =>
    decide (r.status = "confirmed") && decide (sd ≤ r.start_time) && decide (r.end_time ≤ ed)).map
    fun r => (r.start_time, r.end_time)

/-- The `NOT EXISTS` overlap test of the macro:
`busy.start_time < slot_start + duration AND busy.end_time > slot_start`. -/
def overlapsBusy (s : Nat) (dur : Int) (b : Nat × Nat) : Bool :=
  decide ((b.1 : Int) < (s : Int) + dur) && decide ((s : Int) < (b.2 : Int))

/-- The business-hours/weekday filter of the macro:
`EXTRACT(hour FROM slot_start) BETWEEN 9 AND 17` (inclusive on both ends) and
`EXTRACT(dow FROM slot_start) BETWEEN 1 AND 5`. -/
def businessHours (s : Nat) : Bool :=
  decide (9 ≤ hourOf s) && decide (hourOf s ≤ 17) && decide (1 ≤ dowOf s) && decide (dowOf s ≤ 5)

/-- The `free_slots(start_date, end_date, duration_minutes)` macro: candidate
starts from the recursive CTE, filtered by the busy-overlap and
business-hours predicates; each surviving row is `(slot_start, slot_end)` with
`slot_end = slot_start + duration`. -/
def free_slots (db : List EventRow) (sd ed : Nat) (dur : Int) : List (Nat × Int) :=
  ((timeSlots sd ed).filter fun s =>
    ((busyTimes db sd ed).all fun b => !overlapsBusy s dur b) && businessHours s).map
    fun s => (s, (s : Int) + dur)

/-- The row written by the `INSERT INTO events` branch of `_handle_sync_data`:
all transformed fields plus `created_at = updated_at = now`. -/
def insertRow (now : Nat) (t : Transformed) : EventRow :=
  { id := t.id
    title := t.title
    description := t.description
    start_time := t.start_time
    end_time := t.end_time
    duration_minutes := t.duration_minutes
    attendees_count := t.attendees_count
    meeting_type := t.meeting_type
    creator_email := t.creator_email
    status := t.status
    location := t.location
    is_recurring := t.is_recurring
    created_at := now
    updated_at := now }

/-- The effect of the `UPDATE events SET ... WHERE id = ?` branch on a matching
row: every transformed field and `updated_at` are overwritten; `id` and
`created_at` are not in the `SET` list and keep their stored values. -/
def updateRow (now : Nat) (t : Transformed) (r : EventRow) : EventRow :=
  { id := r.id
    title := t.title
    description := t.description
    start_time := t.start_time
    end_time := t.end_time
    duration_minutes := t.duration_minutes
    attendees_count := t.attendees_count
    meeting_type := t.meeting_type
    creator_email := t.creator_email
    status := t.status
    location := t.location
    is_recurring := t.is_recurring
    created_at := r.created_at
    updated_at := now }

/-- One reconciliation step of `_handle_sync_data`: look the id up
(`SELECT id FROM events WHERE id = ?`); if a row exists, update every row with
that id in place, else append a fresh row.  The boolean is `true` when the
insert branch ran. -/
def upsert (now : Nat) (t : Transformed) (db : List EventRow) : List EventRow × Bool :=
  if db.any (fun r => decide (r.id = t.id)) then
    (db.map fun r => if r.id = t.id then updateRow now t r else r, false)
  else
    (db ++ [insertRow now t], true)

/-- The database and the three per-record counters accumulated by the sync
loop of `_handle_sync_data`. -/
structure SyncOut where
  db : List EventRow
  inserted : Nat
  updated : Nat
  errors : Nat
deriving DecidableEq, Repr

/-- The per-record loop of `_handle_sync_data`: each raw event is transformed;
a transform failure increments `errors` and skips the record; otherwise the
event is upserted and counted as inserted or updated. -/
def syncLoop (now : Nat) : List RawEvent → List EventRow → SyncOut
  | [], db => ⟨db, 0, 0, 0⟩
  | e :: rest, db =>
    match transform_event_data e with
    | none =>
      let r := syncLoop now rest db
      ⟨r.db, r.inserted, r.updated, r.errors + 1⟩
    | some t =>
      let step := upsert now t db
      let r := syncLoop now rest step.1
      if step.2 then ⟨r.db, r.inserted + 1, r.updated, r.errors⟩
      else ⟨r.db, r.inserted, r.updated + 1, r.errors⟩

/-- The `sync_stats` dict returned by `_handle_sync_data`. -/
structure SyncStats where
  fetched : Nat
  inserted : Nat
  updated : Nat
  errors : Nat
deriving DecidableEq, Repr

/-- `_handle_sync_data` after a successful fetch: `fetched` is the length of
the received event list; the loop reconciles each record into the store. -/
def handle_sync_data (now : Nat) (feed : List RawEvent) (db : List EventRow) :
    List EventRow × SyncStats :=
  let r := syncLoop now feed db
  (r.db, ⟨feed.length, r.inserted, r.updated, r.errors⟩)

/-- The stored ids, in row order. -/
def idsOf (db : List EventRow) : List String := db.map fun r => r.id

/-- The transformed payloads a feed writes, in feed order (records whose
transform fails write nothing). -/
def okWrites (feed : List RawEvent) : List Transformed :=
  feed.filterMap transform_event_data

/-- The last transformed payload a feed writes for a given id, if any. -/
def lastWrite : List RawEvent → String → Option Transformed
  | [], _ => none
  | e :: rest, i =>
    match lastWrite rest i with
    | some t => some t
    | none =>
      match transform_event_data e with
      | some t => if t.id = i then some t else none
      | none => none

/-- The net effect of a no-insert sync pass on a single stored row: rows whose
id the feed writes end up updated with the feed's last payload for that id;
other rows are untouched. -/
def applyLast (now : Nat) (feed : List RawEvent) (r : EventRow) : EventRow :=
  match lastWrite feed r.id with
  | some t => updateRow now t r
  | none => r

/-- A stored row with its `updated_at` column masked, for comparing store
contents modulo `updated_at`. -/
def stripUpd (r : EventRow) : EventRow := { r with updated_at := 0 }

/-- The mutable columns of a stored row (those in the `UPDATE ... SET` list
apart from `updated_at`). -/
def mutOf (r : EventRow) :
    String × String × Nat × Nat × Int × Nat × String × String × String × String × Bool :=
  (r.title, r.description, r.start_time, r.end_time, r.duration_minutes, r.attendees_count,
    r.meeting_type, r.creator_email, r.status, r.location, r.is_recurring)

/-- The same columns of a transformed payload. -/
def mutOfT (t : Transformed) :
    String × String × Nat × Nat × Int × Nat × String × String × String × String × Bool :=
  (t.title, t.description, t.start_time, t.end_time, t.duration_minutes, t.attendees_count,
    t.meeting_type, t.creator_email, t.status, t.location, t.is_recurring)

/-- The rows selected by every analytics query of `_handle_generate_insights`:
`start_time >= start AND start_time <= end AND status = 'confirmed'`. -/
def confirmedIn (db : List EventRow) (ws we : Nat) : List EventRow :=
  db.filter fun r =>
    decide (ws ≤ r.start_time) && decide (r.start_time ≤ we) && decide (r.status = "confirmed")

/-- `total_meetings`: `SELECT COUNT(*)` over the window. -/
def total_meetings (db : List EventRow) (ws we : Nat) : Nat :=
  (confirmedIn db ws we).length

/-- `total_hours`: `COALESCE(SUM(duration_minutes), 0) / 60.0` over the window. -/
def total_hours (db : List EventRow) (ws we : Nat) : Rat :=
  ((((confirmedIn db ws we).map fun r => r.duration_minutes).sum : Int) : Rat) / 60

/-- Insertion of a breakdown row into a list sorted descending by the hours
column, realising the query's `ORDER BY hours DESC`. -/
def insertByHours (x : String × Nat × Rat) : List (String × Nat × Rat) → List (String × Nat × Rat)
  | [] => [x]
  | y :: ys => if y.2.2 < x.2.2 then x :: y :: ys else y :: insertByHours x ys

/-- Sort a list of breakdown rows descending by hours. -/
def sortByHoursDesc (rows : List (String × Nat × Rat)) : List (String × Nat × Rat) :=
  rows.foldr insertByHours []

/-- `meeting_breakdown`: `SELECT meeting_type, COUNT(*), SUM(duration_minutes)/60.0
... GROUP BY meeting_type ORDER BY hours DESC` over the window. -/
def meeting_breakdown (db : List EventRow) (ws we : Nat) : List (String × Nat × Rat) :=
  let evs := confirmedIn db ws we
  sortByHoursDesc <|
    ((evs.map fun r => r.meeting_type).dedup).map fun mt =>
      (mt, (evs.filter fun r => decide (r.meeting_type = mt)).length,
        ((((evs.filter fun r => decide (r.meeting_type = mt)).map fun r =>
          r.duration_minutes).sum : Int) : Rat) / 60)

/-- A Python runtime value, for modelling Python's `==` between operands of
different types: `int == str` is well-typed in Python and always `False`.
The derived decidable equality realises exactly that (distinct constructors
never compare equal). -/
inductive PyVal where
  | pInt : Int → PyVal
  | pStr : String → PyVal
deriving DecidableEq, Repr

/-- The filtered sum inside `_handle_generate_insights`:
`sum(hours for _, _, hours in meeting_breakdown if _ == "external")`.
Unpacking `_, _, hours` rebinds `_` twice, leaving it bound to the middle
component — the `COUNT(*)` integer — so the guard compares that integer with
the string `"external"`. -/
def externalHoursCode (rows : List (String × Nat × Rat)) : Rat :=
  ((rows.filter fun row => decide (PyVal.pInt (row.2.1 : Int) = PyVal.pStr "external")).map
    fun row => row.2.2).sum

/-- `external_percentage` as computed by the source (guarded by
`total_hours > 0` before the division is reached). -/
def external_percentage (db : List EventRow) (ws we : Nat) : Rat :=
  externalHoursCode (meeting_breakdown db ws we) / total_hours db ws we * 100

/-- Whether the source emits the high-external-ratio recommendation
(inside the `include_recommendations and total_hours > 0` block). -/
def highExternalFlag (db : List EventRow) (ws we : Nat) : Bool :=
  decide ((60 : Rat) < external_percentage db ws we)

/-- Hours of the breakdown rows whose `meeting_type` column is `"external"` —
the quantity the spec's recommendation rule is stated in terms of. -/
def externalHoursByType (rows : List (String × Nat × Rat)) : Rat :=
  ((rows.filter fun row => decide (row.1 = "external")).map fun row => row.2.2).sum

/-- `average_meeting_length`:
`(total_hours * 60 / total_meetings) if total_meetings > 0 else 0`. -/
def average_meeting_length (db : List EventRow) (ws we : Nat) : Rat :=
  if 0 < total_meetings db ws we then
    total_hours db ws we * 60 / ((total_meetings db ws we : Nat) : Rat)
  else 0

/-- Helper for building concrete raw events; the unset optional fields take
the transformer's defaults. -/
def mkRaw (i : String) (titleStr : Option String) (st et : Option Nat) (atts : List Attendee) :
    RawEvent :=
  { id := i
    title := titleStr
    description := none
    start_time := st
    end_time := et
    attendees := atts
    creator_email := none
    status := none
    location := none
    recurring := none }

/-- Sample raw event with an attendee outside the company domain. -/
def rawExternalMeeting : RawEvent :=
  mkRaw "ext" none (some 540) (some 600) [⟨"a@example.com"⟩, ⟨"b@other.com"⟩]

/-- Sample raw event with two company-domain attendees. -/
def rawInternalMeeting : RawEvent :=
  mkRaw "itl" none (some 540) (some 600) [⟨"a@example.com"⟩, ⟨"b@example.com"⟩]

/-- Sample raw event with a single company-domain attendee. -/
def rawPersonalMeeting : RawEvent :=
  mkRaw "per" none (some 540) (some 600) [⟨"a@example.com"⟩]

/-- Sample well-formed raw event. -/
def rawValidOne : RawEvent := mkRaw "v1" (some "V1") (some 540) (some 630) []

/-- Another sample well-formed raw event. -/
def rawValidTwo : RawEvent := mkRaw "v2" (some "V2") (some 700) (some 760) []

/-- Sample raw event whose end precedes its start. -/
def rawEndBeforeStart : RawEvent := mkRaw "neg" (some "Neg") (some 600) (some 540) []

/-- First of two sample raw events sharing an id. -/
def rawDupA : RawEvent := mkRaw "dup" (some "A") (some 540) (some 600) []

/-- Second of two sample raw events sharing an id, with a different title. -/
def rawDupB : RawEvent := mkRaw "dup" (some "B") (some 660) (some 720) []

/-- Helper for building concrete stored rows. -/
def mkRow (i : String) (st et : Nat) (dur : Int) (mt : String) : EventRow :=
  { id := i
    title := "t"
    description := ""
    start_time := st
    end_time := et
    duration_minutes := dur
    attendees_count := 0
    meeting_type := mt
    creator_email := ""
    status := "confirmed"
    location := ""
    is_recurring := false
    created_at := 0
    updated_at := 0 }

/-- Sample store for the insights queries: 7 confirmed external hours and
3 confirmed internal hours (external share 70%). -/
def insightsStore : List EventRow :=
  [mkRow "m1" 100 520 420 "external", mkRow "m2" 200 380 180 "internal"]

/-- Sample transformed payload. -/
def sampleTransformed : Transformed :=
  { id := "s1"
    title := "S"
    description := ""
    start_time := 540
    end_time := 600
    duration_minutes := 60
    attendees_count := 2
    meeting_type := "internal"
    creator_email := "c@example.com"
    status := "confirmed"
    location := ""
    is_recurring := false }

/-- Sample stored row sharing `sampleTransformed`'s id. -/
def sampleRow : EventRow := insertRow 1 sampleTransformed

/-! ## Helper lemmas -/

/-- Every slot produced by the recursive candidate generation is either the
anchor `s` or lies strictly below `end_date`. -/
theorem mem_timeSlotsAux : ∀ (f s ed x : Nat), x ∈ timeSlotsAux f s ed → x = s ∨ x < ed := by
  intro f
  induction f with
  | zero =>
    intro s ed x hx
    simp [timeSlotsAux] at hx
    exact Or.inl hx
  | succ n ih =>
    intro s ed x hx
    by_cases hc : s + 30 < ed
    · rw [timeSlotsAux, if_pos hc] at hx
      rcases List.mem_cons.1 hx with h | h
      · exact Or.inl h
      · rcases ih _ _ _ h with h2 | h2
        · subst h2; omega
        · exact Or.inr h2
    · rw [timeSlotsAux, if_neg hc] at hx
      simp at hx
      exact Or.inl hx

/-- Candidate starts emitted for `[sd, ed]` are the anchor or below `ed`. -/
theorem mem_timeSlots {sd ed x : Nat} (hx : x ∈ timeSlots sd ed) : x = sd ∨ x < ed :=
  mem_timeSlotsAux _ _ _ _ hx

/-- When `end_date <= start_date` the candidate generation still emits the
single anchor row. -/
theorem timeSlots_of_le {sd ed : Nat} (h : ed ≤ sd) : timeSlots sd ed = [sd] := by
  unfold timeSlots
  have h0 : ed - sd = 0 := by omega
  rw [h0]
  rfl

/-! ## Claims about the free-slot search -/

/-- C1 counterexample: for the range Wednesday 09:00 to Wednesday 20:00 with
duration 30 and an empty store, the macro emits the slot starting at
Wednesday 17:00 (minute 5340), whose local hour is 17 — not in `[9, 17)`.
The SQL filter `EXTRACT(hour ...) BETWEEN 9 AND 17` is inclusive at 17. -/
theorem c1_hour_filter_counterexample :
    (5340, (5370 : Int)) ∈ free_slots [] 4860 5520 30 ∧ ¬ hourOf 5340 < 17 := by
  decide

/-- C1 amended: every emitted slot has local start hour in `[9, 17]`
(inclusive at 17) and weekday Monday through Friday; and for a range covering
a weekday 09:00–17:00 (Wednesday, minutes 4860 to 5340) with duration 30, no
emitted slot starts at or after 17:00, because candidate generation stops
strictly below the range end. -/
theorem c1_business_hours_amended :
    (∀ (db : List EventRow) (sd ed : Nat) (dur : Int) (p : Nat × Int),
      p ∈ free_slots db sd ed dur →
        9 ≤ hourOf p.1 ∧ hourOf p.1 ≤ 17 ∧ 1 ≤ dowOf p.1 ∧ dowOf p.1 ≤ 5) ∧
    (∀ (db : List EventRow) (p : Nat × Int), p ∈ free_slots db 4860 5340 30 → p.1 < 5340) := by
  constructor
  · intro db sd ed dur p hp
    obtain ⟨s, hs, rfl⟩ := List.mem_map.1 hp
    have hfil := (List.mem_filter.1 hs).2
    have hb : businessHours s = true := by
      cases h1 : (busyTimes db sd ed).all fun b => !overlapsBusy s dur b <;>
        cases h2 : businessHours s <;> simp [h1, h2] at hfil ⊢
    simp only [businessHours, Bool.and_eq_true, decide_eq_true_eq] at hb
    exact ⟨hb.1.1.1, hb.1.1.2, hb.1.2, hb.2⟩
  · intro db p hp
    obtain ⟨s, hs, rfl⟩ := List.mem_map.1 hp
    have hmem := (List.mem_filter.1 hs).1
    rcases mem_timeSlots hmem with h | h
    · omega
    · exact h

/-- C1 amended witness: the theorem applied to the slot `(4860, 4890)`
(Wednesday 09:00) emitted for the ranges used above. -/
theorem c1_business_hours_amended_witness :
    (9 ≤ hourOf 4860 ∧ hourOf 4860 ≤ 17 ∧ 1 ≤ dowOf 4860 ∧ dowOf 4860 ≤ 5) ∧ 4860 < 5340 :=
  ⟨c1_business_hours_amended.1 [] 4860 5520 30 (4860, 4890) (by decide),
    c1_business_hours_amended.2 [] (4860, 4890) (by decide)⟩

/-- C4 counterexample: with `end_date = start_date` (Wednesday 09:00) the
macro still emits the anchor candidate, and with `duration_minutes = 0` it
emits a full day of candidates — neither input yields an empty sequence. -/
theorem c4_edge_cases_counterexample :
    free_slots [] 4860 4860 30 = [(4860, 4890)] ∧ free_slots [] 4860 5340 0 ≠ [] := by
  decide

/-- C4 amended: when `end_date <= start_date` the recursive generation still
produces the single anchor candidate `start_date`, so the result is either
empty or exactly that one slot (it is emitted whenever the anchor passes the
business-hours and overlap filters); a non-positive duration is not
special-cased and does not force an empty result. -/
theorem c4_edge_cases_amended :
    (∀ (db : List EventRow) (sd ed : Nat) (dur : Int), ed ≤ sd →
      free_slots db sd ed dur = [] ∨ free_slots db sd ed dur = [(sd, (sd : Int) + dur)]) ∧
    free_slots [] 4860 5340 0 ≠ [] := by
  constructor
  · intro db sd ed dur h
    have hts : timeSlots sd ed = [sd] := timeSlots_of_le h
    by_cases hp : (((busyTimes db sd ed).all fun b => !overlapsBusy sd dur b) &&
        businessHours sd) = true
    · right
      simp [free_slots, hts, List.filter_cons, hp]
    · left
      simp [free_slots, hts, List.filter_cons, hp]
  · decide

/-- C4 amended witness: the dichotomy applied to the concrete degenerate range
`[4860, 4860]`. -/
theorem c4_edge_cases_amended_witness :
    free_slots [] 4860 4860 30 = [] ∨ free_slots [] 4860 4860 30 = [(4860, (4860 : Int) + 30)] :=
  c4_edge_cases_amended.1 [] 4860 4860 30 (by decide)

/-! ## Claims about the transformer -/

/-- C5: meeting-type classification.  Through the transformer with the
hard-coded home domain `example.com`: attendees `[a@example.com, b@other.com]`
classify as external, `[a@example.com, b@example.com]` as internal and
`[a@example.com]` as personal; and in general the stored `meeting_type` is a
function of the attendee list alone. -/
theorem c5_meeting_type_classification :
    ((transform_event_data rawExternalMeeting).map fun t => t.meeting_type) = some "external" ∧
    ((transform_event_data rawInternalMeeting).map fun t => t.meeting_type) = some "internal" ∧
    ((transform_event_data rawPersonalMeeting).map fun t => t.meeting_type) = some "personal" ∧
    (∀ e t, transform_event_data e = some t →
      t.meeting_type = meetingType "example.com" e.attendees) := by
  refine ⟨by decide, by decide, by decide, ?_⟩
  intro e t h
  cases hst : e.start_time <;> cases het : e.end_time <;>
    simp [transform_event_data, hst, het] at h
  rw [← h]

/-- C5 witness: the general conjunct applied to the concrete external
meeting. -/
theorem c5_meeting_type_classification_witness :
    ({ id := "ext", title := "No title", description := "", start_time := 540, end_time := 600,
       duration_minutes := 60, attendees_count := 2, meeting_type := "external",
       creator_email := "", status := "confirmed", location := "",
       is_recurring := false } : Transformed).meeting_type =
      meetingType "example.com" rawExternalMeeting.attendees :=
  c5_meeting_type_classification.2.2.2 rawExternalMeeting _ (by decide)

/-- C2 counterexample: a record whose end precedes its start transforms
successfully (no check relates the two timestamps), and a batch of one such
record among two valid ones syncs with `errors = 0` and `inserted = 3` — not
`errors = 1` with only the valid records counted. -/
theorem c2_transform_error_counterexample :
    (transform_event_data rawEndBeforeStart).isSome = true ∧
    (handle_sync_data 0 [rawValidOne, rawEndBeforeStart, rawValidTwo] []).2.errors = 0 ∧
    (handle_sync_data 0 [rawValidOne, rawEndBeforeStart, rawValidTwo] []).2.inserted = 3 := by
  decide

/-- C2 amended: the transformer fails exactly when the start or end timestamp
is missing/unparsable; `end_time <= start_time` is accepted and the record is
stored with its (non-positive) duration, so the sample batch yields
`errors = 0` with all three records inserted, the malformed one with
`duration_minutes = -60`. -/
theorem c2_transform_error_amended :
    (∀ e, transform_event_data e = none ↔ (e.start_time = none ∨ e.end_time = none)) ∧
    (handle_sync_data 0 [rawValidOne, rawEndBeforeStart, rawValidTwo] []).2 = ⟨3, 3, 0, 0⟩ ∧
    (∃ r ∈ (handle_sync_data 0 [rawValidOne, rawEndBeforeStart, rawValidTwo] []).1,
      r.id = "neg" ∧ r.duration_minutes = -60) := by
  refine ⟨?_, by decide, by decide⟩
  intro e
  cases hst : e.start_time <;> cases het : e.end_time <;>
    simp [transform_event_data, hst, het]

/-! ## Claims about the insights aggregator -/

/-- C3: the high-external-ratio recommendation is dead code.  The source's
filtered sum compares the row's `COUNT(*)` integer with the string
`"external"` (the `_` placeholder is rebound by the tuple unpacking), so it is
`0` for every breakdown; on a concrete store whose external share is 70% of a
positive total, the flag the spec requires is therefore not emitted. -/
theorem c3_external_ratio_dead_code :
    (∀ rows : List (String × Nat × Rat), externalHoursCode rows = 0) ∧
    (∀ (db : List EventRow) (ws we : Nat), highExternalFlag db ws we = false) ∧
    (0 : Rat) < total_hours insightsStore 0 1000 ∧
    (3 : Rat) / 5 <
      externalHoursByType (meeting_breakdown insightsStore 0 1000) /
        total_hours insightsStore 0 1000 := by
  have hzero : ∀ rows : List (String × Nat × Rat), externalHoursCode rows = 0 := by
    intro rows
    unfold externalHoursCode
    have hnil :
        rows.filter (fun row => decide (PyVal.pInt (row.2.1 : Int) = PyVal.pStr "external")) =
          [] :=
      List.filter_eq_nil_iff.2 fun row _ => by simp
    rw [hnil]
    rfl
  have hth : total_hours insightsStore 0 1000 = 10 := by
    unfold total_hours
    rw [(by decide : confirmedIn insightsStore 0 1000 = insightsStore)]
    norm_num [insightsStore, mkRow]
  have hbd : meeting_breakdown insightsStore 0 1000 = [("external", 1, 7), ("internal", 1, 3)] := by
    unfold meeting_breakdown
    rw [(by decide : confirmedIn insightsStore 0 1000 = insightsStore)]
    norm_num +decide [insightsStore, mkRow, sortByHoursDesc, insertByHours, List.dedup,
      List.pwFilter]
  refine ⟨hzero, ?_, ?_, ?_⟩
  · intro db ws we
    unfold highExternalFlag external_percentage
    rw [hzero]
    norm_num
  · rw [hth]
    norm_num
  · rw [hth, hbd]
    norm_num +decide [externalHoursByType]

/-- C9: the zero-division guard of the average meeting length.  With zero
confirmed meetings in the window the average is 0; with a positive count it is
`total_hours * 60 / total_meetings`. -/
theorem c9_average_length_guard (db : List EventRow) (ws we : Nat) :
    (total_meetings db ws we = 0 → average_meeting_length db ws we = 0) ∧
    (0 < total_meetings db ws we →
      average_meeting_length db ws we =
        total_hours db ws we * 60 / ((total_meetings db ws we : Nat) : Rat)) := by
  constructor
  · intro h
    unfold average_meeting_length
    rw [if_neg]
    omega
  · intro h
    unfold average_meeting_length
    rw [if_pos h]

/-- C9 witness: the guard applied to the empty store (zero meetings) and to
the sample store (two meetings). -/
theorem c9_average_length_guard_witness :
    average_meeting_length [] 0 10 = 0 ∧
    average_meeting_length insightsStore 0 1000 =
      total_hours insightsStore 0 1000 * 60 /
        ((total_meetings insightsStore 0 1000 : Nat) : Rat) :=
  ⟨(c9_average_length_guard [] 0 10).1 (by decide),
    (c9_average_length_guard insightsStore 0 1000).2 (by decide)⟩

/-! ## Claims about the sync loop -/

/-- Each record of a feed is counted in exactly one of the three per-record
counters of the sync loop. -/
theorem syncLoop_counters (now : Nat) : ∀ (feed : List RawEvent) (db : List EventRow),
    feed.length =
      (syncLoop now feed db).inserted + (syncLoop now feed db).updated +
        (syncLoop now feed db).errors := by
  intro feed
  induction feed with
  | nil => intro db; simp [syncLoop]
  | cons e rest ih =>
    intro db
    cases htr : transform_event_data e with
    | none =>
      simp only [syncLoop, htr, List.length_cons]
      have := ih db
      omega
    | some t =>
      simp only [syncLoop, htr, List.length_cons]
      have := ih (upsert now t db).1
      cases hstep : (upsert now t db).2 <;> simp <;> omega

/-- C10: for every sync whose fetch succeeds,
`fetched = inserted + updated + errors`. -/
theorem c10_stats_partition (now : Nat) (feed : List RawEvent) (db : List EventRow) :
    (handle_sync_data now feed db).2.fetched =
      (handle_sync_data now feed db).2.inserted + (handle_sync_data now feed db).2.updated +
        (handle_sync_data now feed db).2.errors := by
  simpa [handle_sync_data] using syncLoop_counters now feed db

/-- Updating in place never changes the stored id column. -/
theorem idsOf_map_update (now : Nat) (t : Transformed) (db : List EventRow) :
    idsOf (db.map fun r => if r.id = t.id then updateRow now t r else r) = idsOf db := by
  unfold idsOf
  rw [List.map_map]
  apply List.map_congr_left
  intro r _
  by_cases h : r.id = t.id <;> simp [h, updateRow, Function.comp]

/-- When the id is already stored, `upsert` takes the `UPDATE` branch. -/
theorem upsert_present (now : Nat) (t : Transformed) (db : List EventRow)
    (h : t.id ∈ idsOf db) :
    upsert now t db = (db.map fun r => if r.id = t.id then updateRow now t r else r, false) := by
  unfold upsert
  rw [if_pos]
  obtain ⟨r, hr, hid⟩ := List.mem_map.1 h
  exact List.any_eq_true.2 ⟨r, hr, by simp [hid]⟩

/-- When the id is absent, `upsert` takes the `INSERT` branch. -/
theorem upsert_absent (now : Nat) (t : Transformed) (db : List EventRow)
    (h : t.id ∉ idsOf db) :
    upsert now t db = (db ++ [insertRow now t], true) := by
  unfold upsert
  rw [if_neg]
  intro hany
  obtain ⟨r, hr, hdec⟩ := List.any_eq_true.1 hany
  exact h (List.mem_map.2 ⟨r, hr, of_decide_eq_true hdec⟩)

/-- Upserting preserves id uniqueness: an update keeps the id column as is,
an insert only happens when the id is absent. -/
theorem nodup_upsert (now : Nat) (t : Transformed) (db : List EventRow)
    (h : (idsOf db).Nodup) : (idsOf (upsert now t db).1).Nodup := by
  by_cases hm : t.id ∈ idsOf db
  · rw [upsert_present now t db hm]
    simpa [idsOf_map_update] using h
  · rw [upsert_absent now t db hm]
    unfold idsOf at h ⊢
    rw [List.map_append]
    rw [List.nodup_append]
    refine ⟨h, List.nodup_singleton _, ?_⟩
    intro x hx hx1
    simp [insertRow] at hx1
    subst hx1
    exact hm hx

/-- Projection of the sync loop's store through a record whose transform
fails: the store is the one produced by the rest of the feed. -/
theorem syncLoop_db_cons_none (now : Nat) (e : RawEvent) (rest : List RawEvent)
    (db : List EventRow) (h : transform_event_data e = none) :
    (syncLoop now (e :: rest) db).db = (syncLoop now rest db).db := by
  simp only [syncLoop, h]

/-- Projection of the sync loop's store through a record whose transform
succeeds: the record is upserted first, then the rest of the feed runs. -/
theorem syncLoop_db_cons_some (now : Nat) (e : RawEvent) (t : Transformed)
    (rest : List RawEvent) (db : List EventRow) (h : transform_event_data e = some t) :
    (syncLoop now (e :: rest) db).db = (syncLoop now rest (upsert now t db).1).db := by
  simp only [syncLoop, h]
  cases (upsert now t db).2 <;> simp

/-- Projection of the insert counter through a successfully transformed
record. -/
theorem syncLoop_inserted_cons_some (now : Nat) (e : RawEvent) (t : Transformed)
    (rest : List RawEvent) (db : List EventRow) (h : transform_event_data e = some t) :
    (syncLoop now (e :: rest) db).inserted =
      (syncLoop now rest (upsert now t db).1).inserted +
        (if (upsert now t db).2 then 1 else 0) := by
  simp only [syncLoop, h]
  cases (upsert now t db).2 <;> simp

/-- Projection of the insert counter through a failed record. -/
theorem syncLoop_inserted_cons_none (now : Nat) (e : RawEvent) (rest : List RawEvent)
    (db : List EventRow) (h : transform_event_data e = none) :
    (syncLoop now (e :: rest) db).inserted = (syncLoop now rest db).inserted := by
  simp only [syncLoop, h]

/-- C7: id uniqueness is an invariant of the store preserved by every sync
(hence by any sequence of upserts), and two raw events sharing an id but
differing in title produce one stored row carrying the second title. -/
theorem c7_id_uniqueness :
    (∀ (now : Nat) (feed : List RawEvent) (db : List EventRow),
      (idsOf db).Nodup → (idsOf (syncLoop now feed db).db).Nodup) ∧
    ((syncLoop 0 [rawDupA, rawDupB] []).db.map fun r => (r.id, r.title)) = [("dup", "B")] := by
  constructor
  · intro now feed
    induction feed with
    | nil =>
      intro db h
      simpa [syncLoop] using h
    | cons e rest ih =>
      intro db h
      cases htr : transform_event_data e with
      | none =>
        rw [syncLoop_db_cons_none now e rest db htr]
        exact ih db h
      | some t =>
        rw [syncLoop_db_cons_some now e t rest db htr]
        exact ih _ (nodup_upsert now t db h)
  · decide

/-- C7 witness: the invariant applied to the duplicate-id feed starting from
the empty store. -/
theorem c7_id_uniqueness_witness :
    (idsOf (syncLoop 0 [rawDupA, rawDupB] []).db).Nodup :=
  c7_id_uniqueness.1 0 [rawDupA, rawDupB] [] (by decide)

/-- C8: the frame of an upsert.  An absent id appends a row with
`created_at = updated_at = now`; a present id rewrites exactly the rows with
that id, and the rewriting replaces every mutable field, sets
`updated_at = now` and leaves `created_at` (and `id`) untouched. -/
theorem c8_upsert_frame (now : Nat) (t : Transformed) (db : List EventRow) :
    (t.id ∉ idsOf db →
      (upsert now t db).1 = db ++ [insertRow now t] ∧
        (insertRow now t).created_at = now ∧ (insertRow now t).updated_at = now) ∧
    (t.id ∈ idsOf db →
      (upsert now t db).1 = db.map fun r => if r.id = t.id then updateRow now t r else r) ∧
    (∀ r, (updateRow now t r).created_at = r.created_at ∧
      (updateRow now t r).updated_at = now ∧ (updateRow now t r).id = r.id ∧
      mutOf (updateRow now t r) = mutOfT t) := by
  refine ⟨fun h => ⟨?_, rfl, rfl⟩, fun h => ?_, fun r => ⟨rfl, rfl, rfl, rfl⟩⟩
  · rw [upsert_absent now t db h]
  · rw [upsert_present now t db h]

/-- C8 witness: the frame at a concrete payload against the empty store
(insert branch) and against a store already holding the id (update branch). -/
theorem c8_upsert_frame_witness :
    ((upsert 5 sampleTransformed []).1 = [] ++ [insertRow 5 sampleTransformed] ∧
      (insertRow 5 sampleTransformed).created_at = 5 ∧
      (insertRow 5 sampleTransformed).updated_at = 5) ∧
    (upsert 5 sampleTransformed [sampleRow]).1 =
      [sampleRow].map fun r =>
        if r.id = sampleTransformed.id then updateRow 5 sampleTransformed r else r :=
  ⟨(c8_upsert_frame 5 sampleTransformed []).1 (by decide),
    (c8_upsert_frame 5 sampleTransformed [sampleRow]).2.1 (by decide)⟩

/-- The update branch of `upsert`, projected to the store. -/
theorem upsert_fst_present (now : Nat) (t : Transformed) (db : List EventRow)
    (h : t.id ∈ idsOf db) :
    (upsert now t db).1 = db.map fun r => if r.id = t.id then updateRow now t r else r := by
  rw [upsert_present now t db h]

/-- The update branch of `upsert`, projected to the inserted flag. -/
theorem upsert_snd_present (now : Nat) (t : Transformed) (db : List EventRow)
    (h : t.id ∈ idsOf db) : (upsert now t db).2 = false := by
  rw [upsert_present now t db h]

/-- The insert branch of `upsert`, projected to the store. -/
theorem upsert_fst_absent (now : Nat) (t : Transformed) (db : List EventRow)
    (h : t.id ∉ idsOf db) : (upsert now t db).1 = db ++ [insertRow now t] := by
  rw [upsert_absent now t db h]

/-- Upserting never loses a stored id. -/
theorem mem_idsOf_upsert (now : Nat) (t : Transformed) (db : List EventRow) (i : String)
    (h : i ∈ idsOf db) : i ∈ idsOf (upsert now t db).1 := by
  by_cases hm : t.id ∈ idsOf db
  · rw [upsert_fst_present now t db hm, idsOf_map_update]
    exact h
  · rw [upsert_fst_absent now t db hm]
    unfold idsOf
    rw [List.map_append]
    exact List.mem_append.2 (Or.inl h)

/-- After upserting `t`, the id `t.id` is stored. -/
theorem mem_idsOf_upsert_self (now : Nat) (t : Transformed) (db : List EventRow) :
    t.id ∈ idsOf (upsert now t db).1 := by
  by_cases hm : t.id ∈ idsOf db
  · rw [upsert_fst_present now t db hm, idsOf_map_update]
    exact hm
  · rw [upsert_fst_absent now t db hm]
    unfold idsOf
    rw [List.map_append]
    refine List.mem_append.2 (Or.inr ?_)
    simp [insertRow]

/-- The sync loop never loses a stored id. -/
theorem idsOf_syncLoop_mono (now : Nat) :
    ∀ (feed : List RawEvent) (db : List EventRow) (i : String),
      i ∈ idsOf db → i ∈ idsOf (syncLoop now feed db).db := by
  intro feed
  induction feed with
  | nil =>
    intro db i h
    simpa [syncLoop] using h
  | cons e rest ih =>
    intro db i h
    cases htr : transform_event_data e with
    | none =>
      rw [syncLoop_db_cons_none now e rest db htr]
      exact ih db i h
    | some t =>
      rw [syncLoop_db_cons_some now e t rest db htr]
      exact ih _ i (mem_idsOf_upsert now t db i h)

/-- Every id the feed successfully writes is stored after the sync loop. -/
theorem okWrites_mem_syncLoop_ids (now : Nat) :
    ∀ (feed : List RawEvent) (db : List EventRow),
      ∀ t ∈ okWrites feed, t.id ∈ idsOf (syncLoop now feed db).db := by
  intro feed
  induction feed with
  | nil =>
    intro db t ht
    simp [okWrites] at ht
  | cons e rest ih =>
    intro db t ht
    cases htr : transform_event_data e with
    | none =>
      rw [syncLoop_db_cons_none now e rest db htr]
      refine ih db t ?_
      simpa [okWrites, htr] using ht
    | some t0 =>
      rw [syncLoop_db_cons_some now e t0 rest db htr]
      have ht' : t = t0 ∨ t ∈ okWrites rest := by
        simpa [okWrites, htr] using ht
      rcases ht' with rfl | hmem
      · exact idsOf_syncLoop_mono now rest _ t.id (mem_idsOf_upsert_self now t db)
      · exact ih _ t hmem

/-- When every id the feed writes is already stored, the sync loop inserts
nothing. -/
theorem syncLoop_inserted_no_insert (now : Nat) :
    ∀ (feed : List RawEvent) (db : List EventRow),
      (∀ t ∈ okWrites feed, t.id ∈ idsOf db) → (syncLoop now feed db).inserted = 0 := by
  intro feed
  induction feed with
  | nil =>
    intro db _
    simp [syncLoop]
  | cons e rest ih =>
    intro db hpre
    cases htr : transform_event_data e with
    | none =>
      rw [syncLoop_inserted_cons_none now e rest db htr]
      refine ih db fun t ht => hpre t ?_
      simpa [okWrites, htr] using ht
    | some t0 =>
      have hid0 : t0.id ∈ idsOf db := hpre t0 (by simp [okWrites, htr])
      have hids1 : idsOf (upsert now t0 db).1 = idsOf db := by
        rw [upsert_fst_present now t0 db hid0, idsOf_map_update]
      rw [syncLoop_inserted_cons_some now e t0 rest db htr,
        upsert_snd_present now t0 db hid0]
      simp only [Bool.false_eq_true, if_false, Nat.add_zero]
      refine ih _ fun t ht => ?_
      rw [hids1]
      refine hpre t ?_
      simp only [okWrites, List.filterMap_cons, htr] at ht ⊢
      exact List.mem_cons_of_mem _ ht

/-- Unfolding of `applyLast` when the feed writes the row's id. -/
theorem applyLast_of_some (now : Nat) (feed : List RawEvent) (r : EventRow) (t : Transformed)
    (h : lastWrite feed r.id = some t) : applyLast now feed r = updateRow now t r := by
  unfold applyLast
  rw [h]

/-- Unfolding of `applyLast` when the feed does not write the row's id. -/
theorem applyLast_of_none (now : Nat) (feed : List RawEvent) (r : EventRow)
    (h : lastWrite feed r.id = none) : applyLast now feed r = r := by
  unfold applyLast
  rw [h]

/-- Skipped records do not contribute a last write. -/
theorem lastWrite_cons_of_fail (e : RawEvent) (rest : List RawEvent) (i : String)
    (htr : transform_event_data e = none) : lastWrite (e :: rest) i = lastWrite rest i := by
  cases hlw : lastWrite rest i <;> simp [lastWrite, htr, hlw]

/-- A later write for an id wins over the head record. -/
theorem lastWrite_cons_of_later (e : RawEvent) (rest : List RawEvent) (i : String)
    (t2 : Transformed) (hlw : lastWrite rest i = some t2) :
    lastWrite (e :: rest) i = some t2 := by
  simp [lastWrite, hlw]

/-- When no later record writes the id, the head record's transform decides. -/
theorem lastWrite_cons_of_head (e : RawEvent) (rest : List RawEvent) (i : String)
    (t0 : Transformed) (htr : transform_event_data e = some t0)
    (hlw : lastWrite rest i = none) :
    lastWrite (e :: rest) i = if t0.id = i then some t0 else none := by
  simp [lastWrite, htr, hlw]

/-- Functional characterisation of a no-insert sync pass: when every id the
feed writes is already stored, the loop maps each row through `applyLast`. -/
theorem syncLoop_db_no_insert (now : Nat) :
    ∀ (feed : List RawEvent) (db : List EventRow),
      (∀ t ∈ okWrites feed, t.id ∈ idsOf db) →
      (syncLoop now feed db).db = db.map (applyLast now feed) := by
  intro feed
  induction feed with
  | nil =>
    intro db _
    have hmap : List.map (applyLast now []) db = List.map id db :=
      List.map_congr_left fun r _ => applyLast_of_none now [] r rfl
    rw [show (syncLoop now [] db).db = db from rfl, hmap, List.map_id]
  | cons e rest ih =>
    intro db hpre
    cases htr : transform_event_data e with
    | none =>
      rw [syncLoop_db_cons_none now e rest db htr]
      rw [ih db fun t ht => hpre t (by simpa [okWrites, htr] using ht)]
      apply List.map_congr_left
      intro r _
      unfold applyLast
      rw [lastWrite_cons_of_fail e rest r.id htr]
    | some t0 =>
      have hid0 : t0.id ∈ idsOf db := hpre t0 (by simp [okWrites, htr])
      have hids1 : idsOf (upsert now t0 db).1 = idsOf db := by
        rw [upsert_fst_present now t0 db hid0, idsOf_map_update]
      rw [syncLoop_db_cons_some now e t0 rest db htr]
      rw [ih _ fun t ht => by
        rw [hids1]
        refine hpre t ?_
        simp only [okWrites, List.filterMap_cons, htr] at ht ⊢
        exact List.mem_cons_of_mem _ ht]
      rw [upsert_fst_present now t0 db hid0, List.map_map]
      apply List.map_congr_left
      intro r _
      simp only [Function.comp]
      by_cases hrid : r.id = t0.id
      · rw [if_pos hrid]
        cases hlw : lastWrite rest r.id with
        | some t2 =>
          have h1 : applyLast now rest (updateRow now t0 r) = updateRow now t2 (updateRow now t0 r) :=
            applyLast_of_some now rest _ t2 hlw
          rw [h1, applyLast_of_some now (e :: rest) r t2
            (lastWrite_cons_of_later e rest r.id t2 hlw)]
          rfl
        | none =>
          have h1 : applyLast now rest (updateRow now t0 r) = updateRow now t0 r :=
            applyLast_of_none now rest _ hlw
          rw [h1, applyLast_of_some now (e :: rest) r t0 (by
            rw [lastWrite_cons_of_head e rest r.id t0 htr hlw, if_pos hrid.symm])]
      · rw [if_neg hrid]
        unfold applyLast
        have hne : ¬ t0.id = r.id := fun h => hrid h.symm
        cases hlw : lastWrite rest r.id with
        | some t2 =>
          rw [lastWrite_cons_of_later e rest r.id t2 hlw]
        | none =>
          rw [lastWrite_cons_of_head e rest r.id t0 htr hlw, if_neg hne]

/-- Rows whose id the feed never writes are passed through the sync loop
untouched. -/
theorem mem_db_of_lastWrite_none (now : Nat) :
    ∀ (feed : List RawEvent) (db : List EventRow) (r : EventRow),
      r ∈ (syncLoop now feed db).db → lastWrite feed r.id = none → r ∈ db := by
  intro feed
  induction feed with
  | nil =>
    intro db r hr _
    simpa [syncLoop] using hr
  | cons e rest ih =>
    intro db r hr hlw
    cases htr : transform_event_data e with
    | none =>
      rw [syncLoop_db_cons_none now e rest db htr] at hr
      rw [lastWrite_cons_of_fail e rest r.id htr] at hlw
      exact ih db r hr hlw
    | some t0 =>
      have hlw_rest : lastWrite rest r.id = none := by
        cases h2 : lastWrite rest r.id with
        | none => rfl
        | some t2 => rw [lastWrite_cons_of_later e rest r.id t2 h2] at hlw; cases hlw
      have hne : ¬ t0.id = r.id := by
        intro h
        rw [lastWrite_cons_of_head e rest r.id t0 htr hlw_rest, if_pos h] at hlw
        cases hlw
      rw [syncLoop_db_cons_some now e t0 rest db htr] at hr
      have hr1 : r ∈ (upsert now t0 db).1 := ih _ r hr hlw_rest
      by_cases hm : t0.id ∈ idsOf db
      · rw [upsert_fst_present now t0 db hm] at hr1
        obtain ⟨r0, hr0, heq⟩ := List.mem_map.1 hr1
        by_cases h0 : r0.id = t0.id
        · rw [if_pos h0] at heq
          exfalso
          apply hne
          rw [← heq]
          exact h0.symm
        · rw [if_neg h0] at heq
          exact heq ▸ hr0
      · rw [upsert_fst_absent now t0 db hm] at hr1
        rcases List.mem_append.1 hr1 with h | h
        · exact h
        · exfalso
          apply hne
          rw [List.mem_singleton.1 h]
          rfl

/-- After any sync pass, a row whose id the feed wrote carries exactly the
mutable fields of the feed's last write for that id. -/
theorem mutOf_of_lastWrite (now : Nat) :
    ∀ (feed : List RawEvent) (db : List EventRow) (r : EventRow) (t : Transformed),
      r ∈ (syncLoop now feed db).db → lastWrite feed r.id = some t → mutOf r = mutOfT t := by
  intro feed
  induction feed with
  | nil =>
    intro db r t _ hlw
    cases hlw
  | cons e rest ih =>
    intro db r t hr hlw
    cases htr : transform_event_data e with
    | none =>
      rw [syncLoop_db_cons_none now e rest db htr] at hr
      rw [lastWrite_cons_of_fail e rest r.id htr] at hlw
      exact ih db r t hr hlw
    | some t0 =>
      rw [syncLoop_db_cons_some now e t0 rest db htr] at hr
      cases h2 : lastWrite rest r.id with
      | some t2 =>
        have ht2 : t2 = t := by
          rw [lastWrite_cons_of_later e rest r.id t2 h2] at hlw
          exact Option.some.inj hlw
        subst ht2
        exact ih _ r t2 hr h2
      | none =>
        rw [lastWrite_cons_of_head e rest r.id t0 htr h2] at hlw
        by_cases h0 : t0.id = r.id
        · rw [if_pos h0] at hlw
          have ht0 : t0 = t := Option.some.inj hlw
          subst ht0
          have hr1 : r ∈ (upsert now t0 db).1 := mem_db_of_lastWrite_none now rest _ r hr h2
          by_cases hm : t0.id ∈ idsOf db
          · rw [upsert_fst_present now t0 db hm] at hr1
            obtain ⟨r0, hr0, heq⟩ := List.mem_map.1 hr1
            by_cases hb : r0.id = t0.id
            · rw [if_pos hb] at heq
              rw [← heq]
              rfl
            · rw [if_neg hb] at heq
              exfalso
              apply hb
              rw [heq]
              exact h0.symm
          · rw [upsert_fst_absent now t0 db hm] at hr1
            rcases List.mem_append.1 hr1 with h | h
            · exfalso
              apply hm
              rw [h0]
              exact List.mem_map_of_mem _ h
            · rw [List.mem_singleton.1 h]
              rfl
        · rw [if_neg h0] at hlw
          cases hlw

/-- C6: sync is idempotent.  For every initial store, every feed and any two
call instants, the second sync of the same unchanged feed inserts nothing,
and the store after the second call equals the store after the first call
once the `updated_at` column is masked. -/
theorem c6_sync_idempotent (feed : List RawEvent) (db0 : List EventRow) (now1 now2 : Nat) :
    (handle_sync_data now2 feed (handle_sync_data now1 feed db0).1).2.inserted = 0 ∧
    ((handle_sync_data now2 feed (handle_sync_data now1 feed db0).1).1).map stripUpd =
      ((handle_sync_data now1 feed db0).1).map stripUpd := by
  have hpre : ∀ t ∈ okWrites feed, t.id ∈ idsOf ((handle_sync_data now1 feed db0).1) :=
    fun t ht => okWrites_mem_syncLoop_ids now1 feed db0 t ht
  constructor
  · show (syncLoop now2 feed ((handle_sync_data now1 feed db0).1)).inserted = 0
    exact syncLoop_inserted_no_insert now2 feed _ hpre
  · show ((syncLoop now2 feed ((handle_sync_data now1 feed db0).1)).db).map stripUpd = _
    rw [syncLoop_db_no_insert now2 feed _ hpre, List.map_map]
    apply List.map_congr_left
    intro r hr
    simp only [Function.comp]
    cases hlw : lastWrite feed r.id with
    | none => rw [applyLast_of_none now2 feed r hlw]
    | some t =>
      rw [applyLast_of_some now2 feed r t hlw]
      have hmut : mutOf r = mutOfT t := mutOf_of_lastWrite now1 feed db0 r t hr hlw
      cases r with
      | mk ida titlea descra sta eta dma aca mta cea stta loca ira caa uaa =>
        simp only [mutOf, mutOfT, Prod.mk.injEq] at hmut
        obtain ⟨h1, h2, h3, h4, h5, h6, h7, h8, h9, h10, h11⟩ := hmut
        simp [stripUpd, updateRow, h1, h2, h3, h4, h5, h6, h7, h8, h9, h10, h11]
